import Mathlib

/-!
Verification development for the Eagle local file-server plugin.

The JavaScript source (src/js/plugin.js, plus the Eagle-API variant of the
same class in src/unnamed/part_000) is shallowly embedded below: pure
functions become Lean functions, the filesystem and catalog are explicit
record parameters, Math.random draws are explicit choice arguments, and
JavaScript falsiness/parseInt/slice semantics are modeled by dedicated
helpers.  Theorems about the embedded definitions follow the definitions.
-/

namespace EagleServer

/-! ## JavaScript primitive semantics -/

/-- ASCII lowercasing of one character, the fragment of toLowerCase the item
names and tags exercise. -/
def lowerChar (c : Char) : Char :=
  if 'A' ≤ c ∧ c ≤ 'Z' then Char.ofNat (c.toNat + 32) else c

/-- JavaScript String.prototype.toLowerCase (ASCII fragment). -/
def jsToLower (s : String) : String :=
  String.mk (s.data.map lowerChar)

/-- JavaScript String.prototype.trim: strip leading and trailing whitespace. -/
def jsTrim (s : String) : String :=
  String.mk (((s.data.dropWhile Char.isWhitespace).reverse.dropWhile Char.isWhitespace).reverse)

/-- Emptiness of a string. -/
def jsIsEmpty (s : String) : Bool :=
  s.data.isEmpty

/-- JavaScript String.prototype.startsWith. -/
def jsStartsWith (s p : String) : Bool :=
  p.data.isPrefixOf s.data

/-- JavaScript String.prototype.endsWith. -/
def jsEndsWith (s p : String) : Bool :=
  p.data.isSuffixOf s.data

/-- One step of String.prototype.split at commas: the accumulator holds the
current piece reversed. -/
def splitCommaAux : List Char → List Char → List String
  | [], acc => [String.mk acc.reverse]
  | c :: rest, acc =>
    if c == ',' then String.mk acc.reverse :: splitCommaAux rest []
    else splitCommaAux rest (c :: acc)

/-- JavaScript s.split(",") — note that the empty string yields [""] and a
trailing comma yields a trailing empty piece. -/
def jsSplitComma (s : String) : List String :=
  splitCommaAux s.data []

/-- JavaScript String.prototype.includes: true when the needle occurs as a
contiguous substring of the haystack (the empty needle always matches). -/
def strIncludes (hay needle : String) : Bool :=
  (List.range (hay.data.length + 1)).any fun i => needle.data.isPrefixOf (hay.data.drop i)

/-- Node path.extname restricted to slash-free file names: the suffix starting
at the last dot, empty when there is no dot or the only dot is the leading
character. -/
def jsExtname (s : String) : String :=
  let cs := s.data
  match cs.reverse.findIdx? (fun c => c == '.') with
  | none => ""
  | some r =>
    let idx := cs.length - 1 - r
    if idx == 0 then "" else String.mk (cs.drop idx)

/-- Decimal digit run folded into a number, as parseInt does. -/
def digitsToNat (ds : List Char) : Nat :=
  ds.foldl (fun n c => n * 10 + (c.toNat - 48)) 0

/-- JavaScript parseInt in radix 10 applied to an optional string (null for a
missing query parameter): skip leading whitespace, read an optional sign and a
maximal run of decimal digits; none models NaN. -/
def jsParseInt : Option String → Option Int
  | none => none
  | some s =>
    let cs := s.data.dropWhile fun c => c.isWhitespace
    let signed : Int × List Char :=
      match cs with
      | '-' :: r => (-1, r)
      | '+' :: r => (1, r)
      | r => (1, r)
    let ds := signed.2.takeWhile Char.isDigit
    if ds.isEmpty then none else some (signed.1 * (digitsToNat ds : Int))

/-- JavaScript or-default over a parsed number, as in parseInt(x) || d: NaN
(none) and 0 are falsy and are replaced by the default. -/
def jsOrInt (v : Option Int) (d : Int) : Int :=
  match v with
  | none => d
  | some n => if n = 0 then d else n

/-- JavaScript or-default over an optional string: null/undefined and the
empty string are falsy. -/
def jsOrStr (v : Option String) (d : String) : String :=
  match v with
  | none => d
  | some s => if jsIsEmpty s then d else s

/-- JavaScript or-default over an optional array: an array is always truthy,
so only a missing field falls back. -/
def jsOrList (v : Option (List String)) (d : List String) : List String :=
  match v with
  | none => d
  | some l => l

/-- JavaScript expression v || null over an optional number: 0 is falsy and
collapses to null. -/
def jsOrNullInt (v : Option Int) : Option Int :=
  match v with
  | none => none
  | some n => if n = 0 then none else some n

/-- Index normalization performed by Array.prototype.slice: a negative index
counts back from the end, and the result is clamped into [0, len]. -/
def jsSliceIdx (len : Nat) (i : Int) : Nat :=
  if i < 0 then ((len : Int) + i).toNat else min i.toNat len

/-- JavaScript Array.prototype.slice(start, stop). -/
def jsSlice {α : Type} (l : List α) (s e : Int) : List α :=
  (l.take (jsSliceIdx l.length e)).drop (jsSliceIdx l.length s)

/-- Position of the first occurrence of pat inside hay, if any. -/
def firstOccurrence (hay pat : List Char) : Option Nat :=
  (List.range (hay.length + 1)).find? fun i => pat.isPrefixOf (hay.drop i)

/-- JavaScript String.prototype.replace with a plain-string pattern and empty
replacement: removes the first occurrence only. -/
def jsReplaceFirst (s pat : String) : String :=
  match firstOccurrence s.data pat.data with
  | none => s
  | some i => String.mk (s.data.take i ++ s.data.drop (i + pat.data.length))

/-- JavaScript truthiness of an optional string. -/
def strTruthy : Option String → Bool
  | none => false
  | some s => !(jsIsEmpty s)

/-! ## Data model -/

/-- Parsed content of a metadata.json sidecar file.  The raw field carries the
serialized JSON text of the whole blob (JSON.stringify output), which the
keyword filter searches. -/
structure MetaJson where
  name : Option String := none
  ext : Option String := none
  btime : Option Int := none
  mtime : Option Int := none
  tags : Option (List String) := none
  folders : Option (List String) := none
  width : Option Int := none
  height : Option Int := none
  raw : String := ""
deriving DecidableEq

/-- Full item record built by loadFileById.  Timestamps are modeled as epoch
numbers; the round trip through new Date and toISOString preserves order. -/
structure EagleFile where
  id : String
  name : String
  path : String
  type : String
  size : Int
  created : Int
  modified : Int
  tags : List String
  folders : List String
  ext : String
  width : Option Int
  height : Option Int
  metadata : MetaJson
deriving DecidableEq

/-- Lightweight record built by loadFileMetadata, carrying only the fields
needed for filtering. -/
structure LightFile where
  id : String
  name : String
  ext : String
  tags : List String
  folders : List String
  metadata : MetaJson
deriving DecidableEq

/-- Fields of a file object that matchesFilter reads.  The JavaScript function
is duck typed and is applied both to full and to lightweight records, so the
embedding factors the common view out. -/
structure MView where
  name : String
  ext : String
  tags : List String
  folders : List String
  metaRaw : String
deriving DecidableEq

/-- View of a full record as matchesFilter sees it. -/
def EagleFile.mview (f : EagleFile) : MView :=
  { name := f.name, ext := f.ext, tags := f.tags, folders := f.folders
    metaRaw := f.metadata.raw }

/-- View of a lightweight record as matchesFilter sees it. -/
def LightFile.mview (f : LightFile) : MView :=
  { name := f.name, ext := f.ext, tags := f.tags, folders := f.folders
    metaRaw := f.metadata.raw }

/-- A filter field that may arrive either as an array or as a comma separated
string; Array.isArray distinguishes the two in the source (the HTTP handlers
always pass strings). -/
inductive StrOrList where
  | str (s : String)
  | list (l : List String)
deriving DecidableEq

/-- Query filter record.  searchParams.get yields null for a missing key,
modeled as none. -/
structure Filters where
  keyword : Option String := none
  ext : Option String := none
  tags : Option StrOrList := none
  folders : Option StrOrList := none
  orderBy : Option String := none
  limit : Option String := none
  offset : Option String := none
deriving DecidableEq

/-- JavaScript truthiness of a string-or-array filter field: arrays are always
truthy (even empty ones), strings only when nonempty. -/
def solTruthy : Option StrOrList → Bool
  | none => false
  | some (.str s) => !(jsIsEmpty s)
  | some (.list _) => true

/-- Entries of a tags/folders filter: an array is used as is, a string is
split on commas and each piece trimmed (empty pieces are kept). -/
def solEntries : StrOrList → List String
  | .str s => (jsSplitComma s).map jsTrim
  | .list l => l

/-! ## Query engine: matchesFilter -/

/-- matchesFilter from src/js/plugin.js lines 106-165: the keyword clause is
an OR over name, tags and the serialized metadata; the ext clause is an exact
match after dot/lowercase normalization; the tags clause demands every listed
tag (AND); the folders clause demands at least one listed folder (OR); all
comparisons lowercase both sides, and a falsy filter field imposes no
constraint. -/
def matchesFilter (file : MView) (filters : Filters) : Bool :=
  (if strTruthy filters.keyword then
    let keyword := jsToLower (jsOrStr filters.keyword "")
    let nameMatch := strIncludes (jsToLower file.name) keyword
    let tagsMatch := file.tags.any fun tag => strIncludes (jsToLower tag) keyword
    let metadataMatch := strIncludes (jsToLower file.metaRaw) keyword
    nameMatch || tagsMatch || metadataMatch
  else true)
  &&
  (if strTruthy filters.ext then
    let ef := jsToLower (jsOrStr filters.ext "")
    let extFilter := if jsStartsWith ef "." then ef else "." ++ ef
    let fileExt := if jsIsEmpty file.ext then jsToLower (jsExtname file.name) else file.ext
    fileExt == extFilter
  else true)
  &&
  (if solTruthy filters.tags then
    let requiredTags := solEntries (filters.tags.getD (.list []))
    let fileTags := file.tags.map jsToLower
    requiredTags.all fun tag => fileTags.contains (jsToLower tag)
  else true)
  &&
  (if solTruthy filters.folders then
    let requiredFolders := solEntries (filters.folders.getD (.list []))
    let fileFolders := file.folders.map jsToLower
    requiredFolders.any fun folder => fileFolders.contains (jsToLower folder)
  else true)

/-! ## Random shuffle of sortFiles -/

/-- Swap of two positions of a list, modeling the destructuring swap on a
JavaScript array (identity when an index is out of range, which the shuffle
loop never produces). -/
def swapL {α : Type} (l : List α) (i j : Nat) : List α :=
  match l[i]?, l[j]? with
  | some a, some b => (l.set i b).set j a
  | _, _ => l

/-- Shuffle loop of sortFiles: the counter starts at length - 1, and each
iteration swaps position i with the drawn position j and decrements i,
stopping at 0. -/
def shuffleGo {α : Type} : List α → Nat → List Nat → List α
  | l, 0, _ => l
  | l, _ + 1, [] => l
  | l, i + 1, j :: rest => shuffleGo (swapL l (i + 1) j) i rest

/-- In-place Fisher-Yates shuffle of sortFiles (plugin.js lines 171-175) with
the Math.random draws made explicit: entry k of js is the index drawn when the
loop counter is length - 1 - k. -/
def fisherYates {α : Type} (l : List α) (js : List Nat) : List α :=
  shuffleGo l (l.length - 1) js

/-- All draw sequences available to a shuffle whose counter starts at c: one
draw in [0, i] for every counter value i from c down to 1.  Under a uniform
Math.random each sequence is equally likely. -/
def choiceSeqs : Nat → List (List Nat)
  | 0 => [[]]
  | c + 1 => (List.range (c + 2)).flatMap fun j => (choiceSeqs c).map (j :: ·)

/-! ## Sorting and pagination -/

/-- Codepoint-lexicographic string comparison over character lists, the
order-theoretic content of localeCompare used by the name sort. -/
def charListLe : List Char → List Char → Bool
  | [], _ => true
  | _ :: _, [] => false
  | a :: as, b :: bs =>
    if a < b then true else if b < a then false else charListLe as bs

/-- String comparison for the name comparator. -/
def jsStrLe (a b : String) : Bool :=
  charListLe a.data b.data

/-- Stable insertion into a sorted prefix, used to model the comparator sort. -/
def insertLe {α : Type} (le : α → α → Bool) (a : α) : List α → List α
  | [] => [a]
  | b :: l => if le a b then a :: b :: l else b :: insertLe le a l

/-- Stable sort modeling Array.prototype.sort under a consistent comparator
(stable sorts under a total preorder agree, so the exact algorithm is
immaterial). -/
def sortLe {α : Type} (le : α → α → Bool) : List α → List α
  | [] => []
  | a :: l => insertLe le a (sortLe le l)

/-- Eleven-field record pushed by getFileList for each matching file, then
sorted and paginated; getRandomFile returns the same shape. -/
structure ListItem where
  id : String
  name : String
  type : String
  size : Int
  created : Int
  modified : Int
  tags : List String
  folders : List String
  ext : String
  width : Option Int
  height : Option Int
deriving DecidableEq

/-- Projection building the list record from a full record, field for field as
in the object literal of getFileList (plugin.js lines 218-230) and of
getRandomFile (lines 356-368). -/
def toListItem (f : EagleFile) : ListItem :=
  { id := f.id, name := f.name, type := f.type, size := f.size, created := f.created
    modified := f.modified, tags := f.tags, folders := f.folders, ext := f.ext
    width := f.width, height := f.height }

/-- sortFiles from src/js/plugin.js lines 168-205.  The random branch runs the
Fisher-Yates loop with the given draws; each comparator branch models the
in-place comparator sort by a stable sort under the same ordering; the default
branch of this variant sorts by created descending. -/
def sortFiles (files : List ListItem) (orderBy : Option String) (js : List Nat) :
    List ListItem :=
  if !strTruthy orderBy || (jsToLower (jsOrStr orderBy "") == "random") then
    fisherYates files js
  else
    match jsToLower (jsOrStr orderBy "") with
    | "name" | "name_asc" => sortLe (fun a b => jsStrLe a.name b.name) files
    | "name_desc" => sortLe (fun a b => jsStrLe b.name a.name) files
    | "created" | "created_asc" => sortLe (fun a b => decide (a.created ≤ b.created)) files
    | "created_desc" => sortLe (fun a b => decide (b.created ≤ a.created)) files
    | "modified" | "modified_asc" => sortLe (fun a b => decide (a.modified ≤ b.modified)) files
    | "modified_desc" => sortLe (fun a b => decide (b.modified ≤ a.modified)) files
    | "size" | "size_asc" => sortLe (fun a b => decide (a.size ≤ b.size)) files
    | "size_desc" => sortLe (fun a b => decide (b.size ≤ a.size)) files
    | _ => sortLe (fun a b => decide (b.created ≤ a.created)) files

/-- sortFiles of the Eagle-API variant (src/unnamed/part_000 lines 185-227):
identical to the directory variant except that the default branch shuffles. -/
def sortFilesApi (files : List ListItem) (orderBy : Option String) (js : List Nat) :
    List ListItem :=
  if !strTruthy orderBy || (jsToLower (jsOrStr orderBy "") == "random") then
    fisherYates files js
  else
    match jsToLower (jsOrStr orderBy "") with
    | "name" | "name_asc" => sortLe (fun a b => jsStrLe a.name b.name) files
    | "name_desc" => sortLe (fun a b => jsStrLe b.name a.name) files
    | "created" | "created_asc" => sortLe (fun a b => decide (a.created ≤ b.created)) files
    | "created_desc" => sortLe (fun a b => decide (b.created ≤ a.created)) files
    | "modified" | "modified_asc" => sortLe (fun a b => decide (a.modified ≤ b.modified)) files
    | "modified_desc" => sortLe (fun a b => decide (b.modified ≤ a.modified)) files
    | "size" | "size_asc" => sortLe (fun a b => decide (a.size ≤ b.size)) files
    | "size_desc" => sortLe (fun a b => decide (b.size ≤ a.size)) files
    | _ => fisherYates files js

/-- Strings recognized by the orderBy switch, together with the random
keyword handled before it. -/
def recognizedKeys : List String :=
  ["random", "name", "name_asc", "name_desc", "created", "created_asc",
   "created_desc", "modified", "modified_asc", "modified_desc", "size",
   "size_asc", "size_desc"]

/-- Result envelope of getFileList. -/
structure PageResult (α : Type) where
  files : List α
  total : Nat
  limit : Int
  offset : Int
deriving DecidableEq

/-- Pagination step of getFileList (plugin.js lines 237-247): parseInt with
falsy fallback to 100 and 0 respectively, then Array.prototype.slice, with the
reported total taken from the full sorted list. -/
def paginate {α : Type} (sortedFiles : List α) (limitP offsetP : Option String) :
    PageResult α :=
  let limit := jsOrInt (jsParseInt limitP) 100
  let offset := jsOrInt (jsParseInt offsetP) 0
  { files := jsSlice sortedFiles offset (offset + limit)
    total := sortedFiles.length, limit := limit, offset := offset }

/-! ## Filesystem-backed item source -/

/-- getFileType (plugin.js lines 376-387): fixed lookup from extension to the
type category. -/
def getFileType (ext : String) : String :=
  let imageExts := [".jpg", ".jpeg", ".png", ".gif", ".bmp", ".webp", ".svg", ".tiff"]
  let videoExts := [".mp4", ".avi", ".mov", ".wmv", ".flv", ".webm", ".mkv"]
  let audioExts := [".mp3", ".wav", ".flac", ".aac", ".ogg", ".m4a"]
  let docExts := [".pdf", ".doc", ".docx", ".txt", ".rtf", ".js"]
  if imageExts.contains ext then "image"
  else if videoExts.contains ext then "video"
  else if audioExts.contains ext then "audio"
  else if docExts.contains ext then "document"
  else "other"

/-- Directory entry as seen by readdirSync together with the stat facts the
loader reads for it. -/
structure DirEntry where
  entryName : String
  isFile : Bool
  size : Int
  birthtime : Int
  mtime : Int
deriving DecidableEq

/-- Filesystem view of one item directory id.info: existence of the directory
and of metadata.json, the parse result of the latter (none when JSON.parse
throws on malformed content), and the directory listing. -/
structure ItemDir where
  dirExists : Bool
  metaFileExists : Bool
  metaParse : Option MetaJson
  entries : List DirEntry
deriving DecidableEq

/-- Filesystem view of the whole library: existence/readability of the images
directory (none models a readdirSync failure) and the per-id directory views. -/
structure LibFS where
  basePath : String
  imagesDirExists : Bool
  readImagesDir : Option (List String)
  item : String → ItemDir

/-- Main payload chooser shared by both loaders: the first directory entry
that is a regular file and neither a generated thumbnail nor a .json sidecar
(plugin.js lines 49-53 and 284-288). -/
def findMainFile (entries : List DirEntry) : Option DirEntry :=
  entries.find? fun e =>
    !(jsEndsWith e.entryName "_thumbnail.png") && !(jsEndsWith e.entryName ".json")
      && e.isFile

/-- Path of the item directory for a given id under the images directory. -/
def itemDirPath (fs : LibFS) (fileId : String) : String :=
  fs.basePath ++ "/images/" ++ fileId ++ ".info"

/-- loadFileById (plugin.js lines 30-83): resolve the item directory, read and
parse metadata.json, choose the main payload file, and merge stored metadata
with filesystem facts; every missing piece and any parse error yields none
(the try/catch around the body). -/
def loadFileById (fs : LibFS) (fileId : String) : Option EagleFile :=
  let d := fs.item fileId
  if !d.dirExists then none
  else if !d.metaFileExists then none
  else
    match d.metaParse with
    | none => none
    | some metadata =>
      match findMainFile d.entries with
      | none => none
      | some mainFile =>
        let ext := jsToLower (jsExtname mainFile.entryName)
        some
          { id := fileId
            name := mainFile.entryName
            path := itemDirPath fs fileId ++ "/" ++ mainFile.entryName
            type := getFileType ext
            size := mainFile.size
            created := jsOrInt metadata.btime mainFile.birthtime
            modified := jsOrInt metadata.mtime mainFile.mtime
            tags := jsOrList metadata.tags []
            folders := jsOrList metadata.folders []
            ext := ext
            width := jsOrNullInt metadata.width
            height := jsOrNullInt metadata.height
            metadata := metadata }

/-- loadFileMetadata (plugin.js lines 260-309): lightweight load used for
filtering; reads only metadata.json, falling back to a directory scan for the
name when the metadata lacks one (the JavaScript fallback chain is
metadata.name || metadata.ext || empty). -/
def loadFileMetadata (fs : LibFS) (fileId : String) : Option LightFile :=
  let d := fs.item fileId
  if !d.dirExists then none
  else if !d.metaFileExists then none
  else
    match d.metaParse with
    | none => none
    | some metadata =>
      let fileName0 := jsOrStr metadata.name (jsOrStr metadata.ext "")
      let scanned : String × String :=
        if jsIsEmpty fileName0 then
          match findMainFile d.entries with
          | some mainFile => (mainFile.entryName, jsToLower (jsExtname mainFile.entryName))
          | none => (fileName0, "")
        else (fileName0, jsToLower (jsExtname fileName0))
      some
        { id := fileId
          name := scanned.1
          ext := scanned.2
          tags := jsOrList metadata.tags []
          folders := jsOrList metadata.folders []
          metadata := metadata }

/-- getAllFileIds (plugin.js lines 86-103): list the .info directories and
strip the suffix via String.replace, which removes only the first occurrence;
a missing or unreadable images directory yields the empty list. -/
def getAllFileIds (fs : LibFS) : List String :=
  if !fs.imagesDirExists then []
  else
    match fs.readImagesDir with
    | none => []
    | some dirs =>
      (dirs.filter fun d => jsEndsWith d ".info").map fun d => jsReplaceFirst d ".info"

/-- getFileList (plugin.js lines 208-257): load every id, filter, project each
hit to the eleven-field record, sort a spread copy and paginate. -/
def getFileList (fs : LibFS) (filters : Filters) (js : List Nat) : PageResult ListItem :=
  let fileIds := getAllFileIds fs
  let files := fileIds.foldr
    (fun fileId acc =>
      match loadFileById fs fileId with
      | some file =>
        if matchesFilter file.mview filters then toListItem file :: acc else acc
      | none => acc) []
  let sortedFiles := sortFiles files filters.orderBy js
  paginate sortedFiles filters.limit filters.offset

/-! ## Random selection with an explicit call trace -/

/-- Call to the item source recorded while serving a random request: a
lightweight metadata fetch or a full resolution. -/
inductive SrvCall where
  | lightCall (id : String)
  | fullCall (id : String)
deriving DecidableEq

/-- Scan loop of getRandomFileId (plugin.js lines 318-323): walk the ids in
order, fetch the lightweight record of each, keep the ids whose record
matches, and record every fetch. -/
def scanIds (fs : LibFS) (filters : Filters) : List String → List String × List SrvCall
  | [] => ([], [])
  | fileId :: rest =>
    let hit := match loadFileMetadata fs fileId with
      | some m => matchesFilter m.mview filters
      | none => false
    let r := scanIds fs filters rest
    (if hit then fileId :: r.1 else r.1, SrvCall.lightCall fileId :: r.2)

/-- getRandomFileId (plugin.js lines 312-336) with the Math.random draw made
explicit as the index j into the matching ids; the second component is the
trace of item-source calls performed. -/
def getRandomFileId (fs : LibFS) (filters : Filters) (j : Nat) :
    Option String × List SrvCall :=
  let scan := scanIds fs filters (getAllFileIds fs)
  if scan.1.isEmpty then (none, scan.2) else (scan.1[j]?, scan.2)

/-- getRandomFile (plugin.js lines 339-373): pick a random id, then resolve
the full record once, for the winner only, and return it with the path
stripped. -/
def getRandomFile (fs : LibFS) (filters : Filters) (j : Nat) :
    Option ListItem × List SrvCall :=
  let picked := getRandomFileId fs filters j
  match picked.1 with
  | none => (none, picked.2)
  | some randomId =>
    match loadFileById fs randomId with
    | none => (none, picked.2 ++ [SrvCall.fullCall randomId])
    | some file => (some (toListItem file), picked.2 ++ [SrvCall.fullCall randomId])

/-! ## Array references for the sorting frame property -/

/-- Heap of JavaScript arrays of list records; a reference is an index into
the store, and only array contents are modeled, which is exactly what
in-place sorting mutates. -/
abbrev ListHeap : Type := List (List ListItem)

/-- Contents of an array reference (empty for a dangling reference). -/
def heapGet (h : ListHeap) (r : Nat) : List ListItem :=
  h.getD r []

/-- this.sortFiles(ref, orderBy) against the heap: both the comparator sort
and the shuffle mutate the argument array in place and return the same
reference (plugin.js lines 168-205). -/
def sortFilesRef (h : ListHeap) (r : Nat) (orderBy : Option String) (js : List Nat) :
    ListHeap × Nat :=
  (List.set h r (sortFiles (heapGet h r) orderBy js), r)

/-- Sorting step of getFileList (plugin.js lines 234-235): the spread
[...files] allocates a fresh array, and that copy is what sortFiles receives. -/
def getFileListSortStep (h : ListHeap) (r : Nat) (orderBy : Option String)
    (js : List Nat) : ListHeap × Nat :=
  let copy := heapGet h r
  let h1 := h ++ [copy]
  sortFilesRef h1 h.length orderBy js

/-! ## Response modeling -/

/-- Response actions the stream-error handler may perform. -/
inductive RespEvent where
  | writeHead (status : Nat)
  | endJson (success : Bool) (error : String)
deriving DecidableEq

/-- Stream-error handler installed by handleFileById (plugin.js lines 571-577)
and verbatim by handleGetRandomMedia (lines 691-697): emit a 500 status with a
structured body only when response headers have not been sent yet. -/
def streamErrorEvents (headersSent : Bool) : List RespEvent :=
  if !headersSent then
    [RespEvent.writeHead 500, RespEvent.endJson false "Error reading file"]
  else []

/-- JSON values appearing in the serialized list records. -/
inductive JVal where
  | s (v : String)
  | i (v : Int)
  | sl (v : List String)
  | oi (v : Option Int)
deriving DecidableEq

/-- Serialized entries, in key order, of the record pushed by getFileList
(plugin.js lines 218-230). -/
def listResponseEntries (file : EagleFile) : List (String × JVal) :=
  [("id", JVal.s file.id), ("name", JVal.s file.name), ("type", JVal.s file.type),
   ("size", JVal.i file.size), ("created", JVal.i file.created),
   ("modified", JVal.i file.modified), ("tags", JVal.sl file.tags),
   ("folders", JVal.sl file.folders), ("ext", JVal.s file.ext),
   ("width", JVal.oi file.width), ("height", JVal.oi file.height)]

/-- Serialized entries, in key order, of the record returned by getRandomFile
(plugin.js lines 356-368). -/
def randomResponseEntries (file : EagleFile) : List (String × JVal) :=
  [("id", JVal.s file.id), ("name", JVal.s file.name), ("type", JVal.s file.type),
   ("size", JVal.i file.size), ("created", JVal.i file.created),
   ("modified", JVal.i file.modified), ("tags", JVal.sl file.tags),
   ("folders", JVal.sl file.folders), ("ext", JVal.s file.ext),
   ("width", JVal.oi file.width), ("height", JVal.oi file.height)]

/-- Recognizer for full-resolution calls in a trace. -/
def SrvCall.isFull : SrvCall → Bool
  | SrvCall.fullCall _ => true
  | SrvCall.lightCall _ => false

/-- Ids surviving the lightweight filter pass of getRandomFileId (the
matchingIds array). -/
def survivors (fs : LibFS) (filters : Filters) : List String :=
  (scanIds fs filters (getAllFileIds fs)).1

/-- Sample parsed metadata used by filesystem witnesses. -/
def metaSample : MetaJson :=
  { name := some "a.png", ext := none, btime := some 1, mtime := some 1
    tags := some ["Cat"], folders := some ["Pets"], width := none, height := none
    raw := "" }

/-- Sample directory entry used by filesystem witnesses. -/
def entrySample : DirEntry :=
  { entryName := "a.png", isFile := true, size := 10, birthtime := 1, mtime := 1 }

/-- Tiny concrete library with one well-formed item directory. -/
def fsSample : LibFS :=
  { basePath := "/lib"
    imagesDirExists := true
    readImagesDir := some ["id1.info"]
    item := fun i =>
      if i = "id1" then
        { dirExists := true, metaFileExists := true, metaParse := some metaSample
          entries := [entrySample] }
      else
        { dirExists := false, metaFileExists := false, metaParse := none
          entries := [] } }

/-- Concrete library whose images directory is missing and whose item
directories do not exist. -/
def fsMissing : LibFS :=
  { basePath := "/lib"
    imagesDirExists := false
    readImagesDir := none
    item := fun _ =>
      { dirExists := false, metaFileExists := false, metaParse := none
        entries := [] } }

/-- Sample view used by concrete witnesses. -/
def mSample : MView :=
  { name := "a.png", ext := ".png", tags := ["Cat", "dog"], folders := ["Pets"]
    metaRaw := "" }

/-- Sample list record used by concrete witnesses and counterexamples. -/
def itemA : ListItem :=
  { id := "A", name := "a.png", type := "image", size := 10, created := 1
    modified := 1, tags := [], folders := [], ext := ".png", width := none
    height := none }

/-- Second sample list record, created later than the first. -/
def itemB : ListItem :=
  { id := "B", name := "b.png", type := "image", size := 20, created := 2
    modified := 2, tags := [], folders := [], ext := ".png", width := none
    height := none }

/-! ## Theorems: filter semantics -/

/-- List.contains agrees with membership for types with lawful equality. -/
theorem contains_mem {α : Type} [BEq α] [LawfulBEq α] (l : List α) (a : α) :
    l.contains a = true ↔ a ∈ l := List.elem_iff

/-- C1: the match predicate applies AND semantics to a listed tags filter and
OR semantics to a listed folders filter, comparing case-insensitively, and an
item with no tags (resp. folders) never matches a non-empty tags (resp. any
active folders) filter. -/
theorem c1_tags_and_folders_or :
    (∀ (m : MView) (fl : Filters) (ts : List String), fl.tags = some (.list ts) →
      matchesFilter m fl = true → ∀ t ∈ ts, jsToLower t ∈ m.tags.map jsToLower)
    ∧ (∀ (m : MView) (fl : Filters) (fs : List String), fl.folders = some (.list fs) →
      matchesFilter m fl = true → ∃ f ∈ fs, jsToLower f ∈ m.folders.map jsToLower)
    ∧ (∀ (m : MView) (ts fs : List String),
      matchesFilter m { tags := some (.list ts), folders := some (.list fs) } =
        (ts.all (fun t => (m.tags.map jsToLower).contains (jsToLower t))
          && fs.any (fun f => (m.folders.map jsToLower).contains (jsToLower f))))
    ∧ (∀ (m : MView) (fl : Filters) (ts : List String), m.tags = [] → ts ≠ [] →
      fl.tags = some (.list ts) → matchesFilter m fl = false)
    ∧ (∀ (m : MView) (fl : Filters) (fs : List String), m.folders = [] →
      fl.folders = some (.list fs) → matchesFilter m fl = false) := by
  refine ⟨?_, ?_, ?_, ?_, ?_⟩
  · intro m fl ts htags hmatch t ht
    simp only [matchesFilter, Bool.and_eq_true] at hmatch
    have h := hmatch.1.2
    rw [htags] at h
    simp only [solTruthy, solEntries, Option.getD_some, if_true, List.all_eq_true,
      contains_mem] at h
    exact h t ht
  · intro m fl fs hfolders hmatch
    simp only [matchesFilter, Bool.and_eq_true] at hmatch
    have h := hmatch.2
    rw [hfolders] at h
    simp only [solTruthy, solEntries, Option.getD_some, if_true, List.any_eq_true,
      contains_mem] at h
    exact h
  · intro m ts fs
    simp [matchesFilter, strTruthy, solTruthy, solEntries]
  · intro m fl ts hmt hts htags
    simp only [matchesFilter, htags, solTruthy, solEntries, Option.getD_some, if_true,
      hmt, Bool.and_eq_false_iff]
    refine Or.inl (Or.inr ?_)
    rw [List.all_eq_false]
    cases ts with
    | nil => exact absurd rfl hts
    | cons t rest => exact ⟨t, List.mem_cons_self t rest, by simp⟩
  · intro m fl fs hmf hfolders
    simp [matchesFilter, hfolders, solTruthy, solEntries, hmf]

/-- C1 witness: concrete instantiation of the AND direction. -/
theorem c1_witness :
    jsToLower "CAT" ∈ mSample.tags.map jsToLower :=
  c1_tags_and_folders_or.1 mSample { tags := some (.list ["CAT"]) } ["CAT"] rfl
    (by decide) "CAT" (by decide)

/-- C10: an empty segment produced by splitting a comma-separated tags filter
string is kept, so the filter demands the empty string in the lowercased tag
set; a concrete characterization at the filter string "a," follows. -/
theorem c10_empty_segment_required :
    (∀ (m : MView) (fl : Filters) (s : String), jsIsEmpty s = false →
      fl.tags = some (.str s) → "" ∈ (jsSplitComma s).map jsTrim →
      "" ∉ m.tags.map jsToLower → matchesFilter m fl = false)
    ∧ (∀ m : MView, matchesFilter m { tags := some (.str "a,") } =
        ((m.tags.map jsToLower).contains "a"
          && (m.tags.map jsToLower).contains "")) := by
  constructor
  · intro m fl s hs htags hmem hnot
    simp only [matchesFilter, htags, solTruthy, solEntries, Option.getD_some, hs,
      Bool.not_false, if_true, Bool.and_eq_false_iff]
    refine Or.inl (Or.inr ?_)
    rw [List.all_eq_false]
    refine ⟨"", hmem, ?_⟩
    simpa [contains_mem] using hnot
  · intro m
    have hsplit : (jsSplitComma "a,").map jsTrim = ["a", ""] := by decide
    have h1 : jsIsEmpty "a," = false := by decide
    have h2 : jsToLower "a" = "a" := by decide
    have h3 : jsToLower "" = "" := by decide
    simp [matchesFilter, strTruthy, solTruthy, solEntries, hsplit, h1, h2, h3]

/-- C10 witness: a file tagged only with a nonempty tag fails the filter
string "a,". -/
theorem c10_witness :
    matchesFilter mSample { tags := some (.str "a,") } = false :=
  c10_empty_segment_required.1 mSample { tags := some (.str "a,") } "a,"
    (by decide) rfl (by decide) (by decide)

/-! ## Shuffle lemmas -/

theorem length_swapL {α : Type} (l : List α) (i j : Nat) :
    (swapL l i j).length = l.length := by
  rw [swapL]
  cases l[i]? <;> cases l[j]? <;> simp

theorem swapL_perm {α : Type} [DecidableEq α] (l : List α) (i j : Nat) :
    (swapL l i j).Perm l := by
  rw [swapL]
  cases hi : l[i]? with
  | none => cases l[j]? <;> exact List.Perm.refl _
  | some a =>
    cases hj : l[j]? with
    | none => exact List.Perm.refl _
    | some b =>
      obtain ⟨hil, hia⟩ := List.getElem?_eq_some_iff.mp hi
      obtain ⟨hjl, hjb⟩ := List.getElem?_eq_some_iff.mp hj
      rw [List.perm_iff_count]
      intro x
      have hjl2 : j < (l.set i b).length := by simpa using hjl
      rw [List.count_set a x (l.set i b) j hjl2, List.count_set b x l i hil]
      have hsetj : (l.set i b)[j] = b := by
        rw [List.getElem_set]
        split
        · rfl
        · exact hjb
      rw [hsetj, hia]
      by_cases hax : a = x
      · have hmem : x ∈ l := hax ▸ (hia ▸ List.getElem_mem hil)
        have hpos : 0 < List.count x l := List.count_pos_iff.mpr hmem
        simp only [hax, beq_self_eq_true, if_pos]
        by_cases hbx : b = x <;> simp [hbx] <;> omega
      · have hax2 : (a == x) = false := beq_eq_false_iff_ne.mpr hax
        simp only [hax2, if_neg Bool.false_ne_true]
        by_cases hbx : b = x <;> simp [hbx]

theorem take_swapL {α : Type} (l : List α) (i j m : Nat) (him : i < m) (hjm : j < m) :
    (swapL l i j).take m = swapL (l.take m) i j := by
  rw [swapL, swapL]
  have hti : (l.take m)[i]? = l[i]? := by rw [List.getElem?_take, if_pos him]
  have htj : (l.take m)[j]? = l[j]? := by rw [List.getElem?_take, if_pos hjm]
  rw [hti, htj]
  cases l[i]? <;> cases l[j]? <;> simp [List.set_take]

theorem drop_swapL {α : Type} (l : List α) (i j m : Nat) (him : i < m) (hjm : j < m) :
    (swapL l i j).drop m = l.drop m := by
  rw [swapL]
  cases l[i]? <;> cases l[j]? <;> simp [List.drop_set, him, hjm]

theorem length_shuffleGo {α : Type} (js : List Nat) : ∀ (l : List α) (i : Nat),
    (shuffleGo l i js).length = l.length := by
  induction js with
  | nil => intro l i; cases i <;> simp [shuffleGo]
  | cons j rest ih =>
    intro l i
    cases i with
    | zero => simp [shuffleGo]
    | succ i =>
      show (shuffleGo (swapL l (i + 1) j) i rest).length = l.length
      rw [ih, length_swapL]

theorem shuffleGo_perm {α : Type} [DecidableEq α] (js : List Nat) :
    ∀ (l : List α) (i : Nat), (shuffleGo l i js).Perm l := by
  induction js with
  | nil => intro l i; cases i <;> exact List.Perm.refl _
  | cons j rest ih =>
    intro l i
    cases i with
    | zero => exact List.Perm.refl _
    | succ i =>
      show (shuffleGo (swapL l (i + 1) j) i rest).Perm l
      exact (ih (swapL l (i + 1) j) i).trans (swapL_perm l (i + 1) j)

theorem mem_choiceSeqs_succ {c : Nat} {js : List Nat} :
    js ∈ choiceSeqs (c + 1) ↔
      ∃ j rest, j < c + 2 ∧ rest ∈ choiceSeqs c ∧ js = j :: rest := by
  simp only [choiceSeqs, List.mem_flatMap, List.mem_map, List.mem_range]
  constructor
  · rintro ⟨j, hj, rest, hrest, rfl⟩
    exact ⟨j, rest, hj, hrest, rfl⟩
  · rintro ⟨j, rest, hj, hrest, rfl⟩
    exact ⟨j, hj, rest, hrest, rfl⟩

theorem drop_decompose {α : Type} (l : List α) (a b : Nat) (hab : a ≤ b)
    (hbl : b ≤ l.length) : l.drop a = (l.take b).drop a ++ l.drop b := by
  conv_lhs => rw [← List.take_append_drop b l]
  rw [List.drop_append_eq_append_drop]
  have hlen : (l.take b).length = b := by
    rw [List.length_take]
    omega
  rw [hlen]
  have : a - b = 0 := by omega
  rw [this, List.drop_zero]

theorem shuffleGo_take {α : Type} : ∀ (c : Nat) (js : List Nat), js ∈ choiceSeqs c →
    ∀ l : List α, c + 1 ≤ l.length →
    shuffleGo l c js = shuffleGo (l.take (c + 1)) c js ++ l.drop (c + 1) := by
  intro c
  induction c with
  | zero =>
    intro js hjs l hl
    have hjs2 : js = [] := by simpa [choiceSeqs] using hjs
    subst hjs2
    show l = List.take 1 l ++ l.drop 1
    rw [List.take_append_drop]
  | succ c ih =>
    intro js hjs l hl
    obtain ⟨j, rest, hj, hrest, rfl⟩ := mem_choiceSeqs_succ.mp hjs
    show shuffleGo (swapL l (c + 1) j) c rest =
      shuffleGo (swapL (l.take (c + 2)) (c + 1) j) c rest ++ l.drop (c + 2)
    have hswap : swapL (l.take (c + 2)) (c + 1) j = (swapL l (c + 1) j).take (c + 2) :=
      (take_swapL l (c + 1) j (c + 2) (by omega) (by omega)).symm
    have hlen1 : (swapL l (c + 1) j).length = l.length := length_swapL l (c + 1) j
    rw [ih rest hrest (swapL l (c + 1) j) (by omega), hswap,
      ih rest hrest ((swapL l (c + 1) j).take (c + 2))
        (by rw [List.length_take]; omega)]
    rw [List.take_take]
    have hmin : min (c + 1) (c + 2) = c + 1 := by omega
    rw [hmin, List.append_assoc]
    congr 1
    have hdropc2 : (swapL l (c + 1) j).drop (c + 2) = l.drop (c + 2) :=
      drop_swapL l (c + 1) j (c + 2) (by omega) (by omega)
    rw [← hdropc2]
    exact drop_decompose (swapL l (c + 1) j) (c + 1) (c + 2) (by omega) (by omega)

theorem countP_flatMap {α β : Type} (p : β → Bool) (f : α → List β) :
    ∀ xs : List α, (xs.flatMap f).countP p = (xs.map fun a => (f a).countP p).sum := by
  intro xs
  induction xs with
  | nil => simp
  | cons a xs ih => simp [List.flatMap_cons, List.countP_append, ih]

theorem sum_map_range_single (g : Nat → Nat) :
    ∀ n j0 : Nat, j0 < n → g j0 = 1 → (∀ j, j < n → j ≠ j0 → g j = 0) →
    ((List.range n).map g).sum = 1 := by
  intro n
  induction n with
  | zero => intro j0 h; omega
  | succ n ih =>
    intro j0 hj0 h1 h0
    rw [List.range_succ, List.map_append, List.sum_append]
    by_cases hj : j0 = n
    · have hz : ((List.range n).map g).sum = 0 := by
        apply List.sum_eq_zero
        intro y hy
        obtain ⟨j, hjmem, rfl⟩ := List.mem_map.mp hy
        rw [List.mem_range] at hjmem
        exact h0 j (by omega) (by omega)
      rw [hz]
      subst hj
      simp [h1]
    · have hs : ((List.range n).map g).sum = 1 :=
        ih j0 (by omega) h1 (fun j hjn hne => h0 j (by omega) hne)
      have hgn : g n = 0 := h0 n (by omega) (fun he => hj he.symm)
      rw [hs]
      simp [hgn]

theorem length_choiceSeqs : ∀ c : Nat, (choiceSeqs c).length = (c + 1).factorial := by
  intro c
  induction c with
  | zero => simp [choiceSeqs]
  | succ c ih =>
    rw [choiceSeqs, List.length_flatMap]
    have hconst : List.map (List.length ∘ fun j => (choiceSeqs c).map (j :: ·))
        (List.range (c + 2)) = List.replicate (c + 2) (c + 1).factorial := by
      rw [List.eq_replicate_iff]
      constructor
      · simp
      · intro b hb
        obtain ⟨j, _, rfl⟩ := List.mem_map.mp hb
        simp [ih]
    rw [hconst, List.sum_replicate, smul_eq_mul]
    have : (c + 1 + 1).factorial = (c + 2) * (c + 1).factorial := Nat.factorial_succ (c + 1)
    omega

theorem count_shuffleGo {α : Type} [DecidableEq α] :
    ∀ (c : Nat) (l : List α), l.length = c + 1 → l.Nodup → ∀ p : List α, p.Perm l →
    ((choiceSeqs c).countP fun js => decide (shuffleGo l c js = p)) = 1 := by
  intro c
  induction c with
  | zero =>
    intro l hl hnd p hp
    obtain ⟨a, rfl⟩ : ∃ a, l = [a] := by
      cases l with
      | nil => simp at hl
      | cons a t =>
        cases t with
        | nil => exact ⟨a, rfl⟩
        | cons b t2 => simp at hl
    have hpa : p = [a] := List.perm_singleton.mp hp
    subst hpa
    simp [choiceSeqs, shuffleGo, List.countP, List.countP.go]
  | succ c ih =>
    intro l hl hnd p hp
    have hpl : p.length = c + 2 := by rw [hp.length_eq, hl]
    have hc1p : c + 1 < p.length := by omega
    have hc1l : c + 1 < l.length := by omega
    obtain ⟨j0, hj0l, hj0x⟩ := List.getElem_of_mem (hp.subset (List.getElem_mem hc1p))
    -- pointwise description of one unrolled loop iteration
    have hkey : ∀ j, j < c + 2 → ∀ rest, rest ∈ choiceSeqs c →
        (shuffleGo l (c + 1) (j :: rest) = p ↔
          (l[j]? = some p[c+1] ∧
            shuffleGo ((swapL l (c + 1) j).take (c + 1)) c rest = p.take (c + 1))) := by
      intro j hj rest hrest
      have hjl : j < l.length := by omega
      set l1 := swapL l (c + 1) j with hl1
      have hl1len : l1.length = c + 2 := by rw [hl1, length_swapL, hl]
      have hstep : shuffleGo l (c + 1) (j :: rest) =
          shuffleGo (l1.take (c + 1)) c rest ++ l1.drop (c + 1) := by
        show shuffleGo l1 c rest = _
        exact shuffleGo_take c rest hrest l1 (by omega)
      have hl1c1 : l1[c+1]? = some l[j] := by
        rw [hl1, swapL, List.getElem?_eq_getElem hc1l, List.getElem?_eq_getElem hjl]
        have hjset : j < (l.set (c + 1) l[j]).length := by simpa using hjl
        rw [List.getElem?_eq_getElem (l := (l.set (c+1) l[j]).set j l[c+1])
          (by simpa using hc1l)]
        congr 1
        rw [List.getElem_set]
        split
        · next heq => subst heq; rfl
        · rw [List.getElem_set, if_pos rfl]
      have hc1l1 : c + 1 < l1.length := by omega
      have hdrop : l1.drop (c + 1) = [l[j]] := by
        rw [List.drop_eq_getElem_cons hc1l1, List.drop_eq_nil_of_le (by omega)]
        have := List.getElem?_eq_getElem hc1l1
        rw [hl1c1] at this
        exact congrArg (fun z => [z]) (Option.some_inj.mp this).symm
      have hpsplit : p = p.take (c + 1) ++ [p[c+1]] := by
        conv_lhs => rw [← List.take_append_drop (c + 1) p]
        congr 1
        rw [List.drop_eq_getElem_cons hc1p, List.drop_eq_nil_of_le (by omega)]
      have hlentake : (shuffleGo (l1.take (c + 1)) c rest).length = c + 1 := by
        rw [length_shuffleGo, List.length_take]
        omega
      have hlenptake : (p.take (c + 1)).length = c + 1 := by
        rw [List.length_take]
        omega
      constructor
      · intro heq
        rw [hstep, hdrop] at heq
        conv_rhs at heq => rw [hpsplit]
        obtain ⟨h1, h2⟩ := List.append_inj heq (by omega)
        have hlj : l[j] = p[c+1] := by simpa using h2
        exact ⟨by rw [List.getElem?_eq_getElem hjl, hlj], h1⟩
      · rintro ⟨h1, h2⟩
        have hlj : l[j] = p[c+1] := by
          rw [List.getElem?_eq_getElem hjl] at h1
          exact Option.some_inj.mp h1
        rw [hstep, hdrop, hlj, h2]
        exact hpsplit.symm
    -- count over the flatMap, one summand per drawn index j
    rw [choiceSeqs, countP_flatMap]
    apply sum_map_range_single _ (c + 2) j0 (by omega)
    · rw [List.countP_map]
      have hswl : (swapL l (c + 1) j0).length = l.length := length_swapL l (c + 1) j0
      have hcount : ((choiceSeqs c).countP
          fun rest => decide (shuffleGo ((swapL l (c + 1) j0).take (c + 1)) c rest
            = p.take (c + 1))) = 1 := by
        apply ih
        · rw [List.length_take]
          omega
        · exact (List.take_sublist _ _).nodup ((swapL_perm l (c + 1) j0).symm.nodup hnd)
        · -- the truncated target is a permutation of the truncated list
          have hperm1 : (swapL l (c + 1) j0).Perm l := swapL_perm l (c + 1) j0
          have hpermp : p.Perm (swapL l (c + 1) j0) := hp.trans hperm1.symm
          have hsplit1 : swapL l (c + 1) j0 =
              (swapL l (c + 1) j0).take (c + 1) ++ [p[c+1]] := by
            conv_lhs => rw [← List.take_append_drop (c + 1) (swapL l (c + 1) j0)]
            congr 1
            have hc1sw : c + 1 < (swapL l (c + 1) j0).length := by omega
            rw [List.drop_eq_getElem_cons hc1sw, List.drop_eq_nil_of_le (by omega)]
            have hswc1 : (swapL l (c + 1) j0)[c+1]? = some l[j0] := by
              rw [swapL, List.getElem?_eq_getElem hc1l, List.getElem?_eq_getElem hj0l]
              rw [List.getElem?_eq_getElem (l := (l.set (c+1) l[j0]).set j0 l[c+1])
                (by simpa using hc1l)]
              congr 1
              rw [List.getElem_set]
              split
              · next heq => subst heq; rfl
              · rw [List.getElem_set, if_pos rfl]
            have h3 := List.getElem?_eq_getElem hc1sw
            rw [hswc1] at h3
            rw [← Option.some_inj.mp h3, hj0x]
          have hsplitp : p = p.take (c + 1) ++ [p[c+1]] := by
            conv_lhs => rw [← List.take_append_drop (c + 1) p]
            congr 1
            rw [List.drop_eq_getElem_cons hc1p, List.drop_eq_nil_of_le (by omega)]
          have := hpermp
          rw [hsplitp, hsplit1] at this
          exact (List.perm_append_right_iff [p[c+1]]).mp this
      have hagree : List.countP ((fun js => decide (shuffleGo l (c + 1) js = p)) ∘ (j0 :: ·))
          (choiceSeqs c) = List.countP
            (fun rest => decide (shuffleGo ((swapL l (c + 1) j0).take (c + 1)) c rest
              = p.take (c + 1))) (choiceSeqs c) := by
        apply List.countP_congr
        intro rest hrest
        simp only [Function.comp_apply, decide_eq_true_eq]
        rw [hkey j0 (by omega) rest hrest]
        have h1 : l[j0]? = some p[c+1] := by rw [List.getElem?_eq_getElem hj0l, hj0x]
        simp [h1]
      rw [hagree]
      exact hcount
    · intro j hjlt hne
      rw [List.countP_map]
      rw [List.countP_eq_zero]
      intro rest hrest
      simp only [Function.comp_apply, decide_eq_true_eq]
      rw [hkey j hjlt rest hrest]
      rintro ⟨h1, -⟩
      have hjl : j < l.length := by omega
      rw [List.getElem?_eq_getElem hjl] at h1
      have : l[j] = l[j0] := by rw [Option.some_inj.mp h1, hj0x]
      exact hne ((hnd.getElem_inj_iff).mp this)

theorem fisherYates_uniform {α : Type} [DecidableEq α] (l : List α) (hnd : l.Nodup)
    (p : List α) (hp : p.Perm l) :
    ((choiceSeqs (l.length - 1)).countP fun js => decide (fisherYates l js = p)) = 1 := by
  cases hl : l with
  | nil =>
    subst hl
    have hpn : p = [] := List.Perm.eq_nil hp
    subst hpn
    simp [choiceSeqs, fisherYates, shuffleGo, List.countP, List.countP.go]
  | cons a t =>
    subst hl
    exact count_shuffleGo t.length (a :: t) (by simp) hnd p hp

/-! ## Sorting lemmas -/

theorem insertLe_perm {α : Type} (le : α → α → Bool) (a : α) :
    ∀ l : List α, (insertLe le a l).Perm (a :: l) := by
  intro l
  induction l with
  | nil => exact List.Perm.refl _
  | cons b l ih =>
    rw [insertLe]
    split
    · exact List.Perm.refl _
    · exact (ih.cons b).trans (List.Perm.swap a b l)

theorem sortLe_perm {α : Type} (le : α → α → Bool) :
    ∀ l : List α, (sortLe le l).Perm l := by
  intro l
  induction l with
  | nil => exact List.Perm.refl _
  | cons a l ih => exact (insertLe_perm le a (sortLe le l)).trans (ih.cons a)

theorem mem_insertLe {α : Type} (le : α → α → Bool) (a x : α) (l : List α) :
    x ∈ insertLe le a l ↔ x = a ∨ x ∈ l := by
  have h := (insertLe_perm le a l).mem_iff (a := x)
  simpa using h

theorem insertLe_sorted {α : Type} (le : α → α → Bool)
    (htot : ∀ a b, (le a b || le b a) = true)
    (htrans : ∀ a b c, le a b = true → le b c = true → le a c = true) (a : α) :
    ∀ l : List α, l.Pairwise (fun x y => le x y = true) →
      (insertLe le a l).Pairwise (fun x y => le x y = true) := by
  intro l
  induction l with
  | nil => intro _; simp [insertLe]
  | cons b l ih =>
    intro hp
    rcases List.pairwise_cons.mp hp with ⟨hb, hl⟩
    rw [insertLe]
    split
    · next hab =>
      refine List.pairwise_cons.mpr ⟨?_, hp⟩
      intro x hx
      rcases List.mem_cons.mp hx with rfl | hxl
      · exact hab
      · exact htrans a b x hab (hb x hxl)
    · next hab =>
      have hba : le b a = true := by
        have h := htot a b
        rw [Bool.or_eq_true] at h
        rcases h with h | h
        · exact absurd h hab
        · exact h
      refine List.pairwise_cons.mpr ⟨?_, ih hl⟩
      intro x hx
      rcases (mem_insertLe le a x l).mp hx with rfl | hxl
      · exact hba
      · exact hb x hxl

theorem sortLe_sorted {α : Type} (le : α → α → Bool)
    (htot : ∀ a b, (le a b || le b a) = true)
    (htrans : ∀ a b c, le a b = true → le b c = true → le a c = true) :
    ∀ l : List α, (sortLe le l).Pairwise (fun x y => le x y = true) := by
  intro l
  induction l with
  | nil => simp [sortLe]
  | cons a l ih => exact insertLe_sorted le htot htrans a _ ih

theorem charListLe_total : ∀ as bs : List Char, (charListLe as bs || charListLe bs as) = true := by
  intro as
  induction as with
  | nil => intro bs; simp [charListLe]
  | cons a as ih =>
    intro bs
    cases bs with
    | nil => simp [charListLe]
    | cons b bs =>
      rcases lt_trichotomy a b with h | h | h
      · simp [charListLe, h]
      · subst h
        simp [charListLe, lt_irrefl, ih bs]
      · simp [charListLe, h, not_lt_of_gt h]

theorem charListLe_trans : ∀ as bs cs : List Char, charListLe as bs = true →
    charListLe bs cs = true → charListLe as cs = true := by
  intro as
  induction as with
  | nil => intro bs cs _ _; rfl
  | cons a as ih =>
    intro bs cs h1 h2
    cases bs with
    | nil => simp [charListLe] at h1
    | cons b bs =>
      cases cs with
      | nil => simp [charListLe] at h2
      | cons c cs =>
        rw [charListLe] at h1 h2 ⊢
        rcases lt_trichotomy a b with hab | hab | hab
        · rcases lt_trichotomy b c with hbc | hbc | hbc
          · have hac : a < c := lt_trans hab hbc
            simp [hac]
          · subst hbc
            simp [hab]
          · rw [if_neg (not_lt_of_gt hbc), if_pos hbc] at h2
            exact absurd h2 (by simp)
        · subst hab
          rcases lt_trichotomy a c with hac | hac | hac
          · simp [hac]
          · subst hac
            rw [if_neg (lt_irrefl a), if_neg (lt_irrefl a)] at h1 h2 ⊢
            exact ih bs cs h1 h2
          · rw [if_neg (not_lt_of_gt hac), if_pos hac] at h2
            exact absurd h2 (by simp)
        · rw [if_neg (not_lt_of_gt hab), if_pos hab] at h1
          exact absurd h1 (by simp)

theorem jsStrLe_total (a b : String) : (jsStrLe a b || jsStrLe b a) = true :=
  charListLe_total a.data b.data

theorem jsStrLe_trans (a b c : String) (h1 : jsStrLe a b = true)
    (h2 : jsStrLe b c = true) : jsStrLe a c = true :=
  charListLe_trans a.data b.data c.data h1 h2

/-! ## Theorems: sort orders -/

/-- C2 counterexample: under the unrecognized key "foo" the directory-scan
sortFiles is deterministic — it sorts by created descending — for every
possible draw sequence of a two-element list, so the identity permutation is
produced with probability 0 rather than the 1/2 a uniform random permutation
would give it. -/
theorem c2_counterexample :
    choiceSeqs 1 = [[0], [1]]
    ∧ sortFiles [itemA, itemB] (some "foo") [0] = [itemB, itemA]
    ∧ sortFiles [itemA, itemB] (some "foo") [1] = [itemB, itemA]
    ∧ [itemB, itemA] ≠ [itemA, itemB] :=
  ⟨rfl, rfl, rfl, by decide⟩

/-- C2 (amended): sortFiles shuffles when orderBy is unset or random, the
shuffle realizes every permutation of a duplicate-free list by exactly one of
the factorially many equally likely draw sequences, each recognized key sorts
by its field in the stated direction, and an unrecognized key falls back to
created descending in the directory variant while the catalog variant
shuffles. -/
theorem c2_sortFiles_amended :
    (∀ (files : List ListItem) (ob : Option String) (js : List Nat),
      (strTruthy ob = false ∨ jsToLower (jsOrStr ob "") = "random") →
      sortFiles files ob js = fisherYates files js)
    ∧ (∀ c : Nat, (choiceSeqs c).length = (c + 1).factorial)
    ∧ (∀ files : List ListItem, files.Nodup → ∀ p, p.Perm files →
        ((choiceSeqs (files.length - 1)).countP
          fun js => decide (fisherYates files js = p)) = 1)
    ∧ (∀ files js, (sortFiles files (some "name") js).Perm files
        ∧ (sortFiles files (some "name") js).Pairwise (fun a b => jsStrLe a.name b.name = true)
        ∧ sortFiles files (some "name") js = sortFiles files (some "name_asc") js)
    ∧ (∀ files js, (sortFiles files (some "name_desc") js).Perm files
        ∧ (sortFiles files (some "name_desc") js).Pairwise (fun a b => jsStrLe b.name a.name = true))
    ∧ (∀ files js, (sortFiles files (some "created") js).Perm files
        ∧ (sortFiles files (some "created") js).Pairwise (fun a b => a.created ≤ b.created)
        ∧ sortFiles files (some "created") js = sortFiles files (some "created_asc") js)
    ∧ (∀ files js, (sortFiles files (some "created_desc") js).Perm files
        ∧ (sortFiles files (some "created_desc") js).Pairwise (fun a b => b.created ≤ a.created))
    ∧ (∀ files js, (sortFiles files (some "modified") js).Perm files
        ∧ (sortFiles files (some "modified") js).Pairwise (fun a b => a.modified ≤ b.modified)
        ∧ sortFiles files (some "modified") js = sortFiles files (some "modified_asc") js)
    ∧ (∀ files js, (sortFiles files (some "modified_desc") js).Perm files
        ∧ (sortFiles files (some "modified_desc") js).Pairwise (fun a b => b.modified ≤ a.modified))
    ∧ (∀ files js, (sortFiles files (some "size") js).Perm files
        ∧ (sortFiles files (some "size") js).Pairwise (fun a b => a.size ≤ b.size)
        ∧ sortFiles files (some "size") js = sortFiles files (some "size_asc") js)
    ∧ (∀ files js, (sortFiles files (some "size_desc") js).Perm files
        ∧ (sortFiles files (some "size_desc") js).Pairwise (fun a b => b.size ≤ a.size))
    ∧ (∀ files ob js, strTruthy ob = true →
        jsToLower (jsOrStr ob "") ∉ recognizedKeys →
        sortFiles files ob js = sortLe (fun a b => decide (b.created ≤ a.created)) files
        ∧ sortFilesApi files ob js = fisherYates files js) := by
  have htotInt : ∀ (f : ListItem → Int) (a b : ListItem),
      (decide (f a ≤ f b) || decide (f b ≤ f a)) = true := by
    intro f a b
    rcases le_total (f a) (f b) with h | h <;> simp [h]
  have htransInt : ∀ (f : ListItem → Int) (a b c : ListItem),
      decide (f a ≤ f b) = true → decide (f b ≤ f c) = true →
      decide (f a ≤ f c) = true := by
    intro f a b c h1 h2
    rw [decide_eq_true_eq] at h1 h2 ⊢
    exact le_trans h1 h2
  have hpw : ∀ (f : ListItem → Int) (l : List ListItem),
      l.Pairwise (fun a b => decide (f a ≤ f b) = true) →
      l.Pairwise (fun a b => f a ≤ f b) := by
    intro f l h
    exact h.imp fun hab => of_decide_eq_true hab
  refine ⟨?_, length_choiceSeqs, ?_, ?_, ?_, ?_, ?_, ?_, ?_, ?_, ?_, ?_⟩
  · intro files ob js h
    have hcond : (!strTruthy ob || (jsToLower (jsOrStr ob "") == "random")) = true := by
      rcases h with h | h
      · rw [h]
        rfl
      · rw [h]
        simp
    rw [sortFiles, if_pos hcond]
  · intro files hnd p hp
    exact fisherYates_uniform files hnd p hp
  · intro files js
    refine ⟨sortLe_perm _ files, sortLe_sorted _ ?_ ?_ files, rfl⟩
    · intro a b
      exact jsStrLe_total a.name b.name
    · intro a b c h1 h2
      exact jsStrLe_trans a.name b.name c.name h1 h2
  · intro files js
    refine ⟨sortLe_perm _ files, sortLe_sorted _ ?_ ?_ files⟩
    · intro a b
      exact jsStrLe_total b.name a.name
    · intro a b c h1 h2
      exact jsStrLe_trans c.name b.name a.name h2 h1
  · intro files js
    exact ⟨sortLe_perm _ files,
      hpw (fun x => x.created) _
        (sortLe_sorted _ (htotInt fun x => x.created)
          (htransInt fun x => x.created) files), rfl⟩
  · intro files js
    refine ⟨sortLe_perm _ files, ?_⟩
    have h := sortLe_sorted (fun a b : ListItem => decide (b.created ≤ a.created))
      (fun a b => htotInt (fun x => x.created) b a)
      (fun a b c h1 h2 => htransInt (fun x => x.created) c b a h2 h1) files
    exact h.imp fun hab => of_decide_eq_true hab
  · intro files js
    exact ⟨sortLe_perm _ files,
      hpw (fun x => x.modified) _
        (sortLe_sorted _ (htotInt fun x => x.modified)
          (htransInt fun x => x.modified) files), rfl⟩
  · intro files js
    refine ⟨sortLe_perm _ files, ?_⟩
    have h := sortLe_sorted (fun a b : ListItem => decide (b.modified ≤ a.modified))
      (fun a b => htotInt (fun x => x.modified) b a)
      (fun a b c h1 h2 => htransInt (fun x => x.modified) c b a h2 h1) files
    exact h.imp fun hab => of_decide_eq_true hab
  · intro files js
    exact ⟨sortLe_perm _ files,
      hpw (fun x => x.size) _
        (sortLe_sorted _ (htotInt fun x => x.size)
          (htransInt fun x => x.size) files), rfl⟩
  · intro files js
    refine ⟨sortLe_perm _ files, ?_⟩
    have h := sortLe_sorted (fun a b : ListItem => decide (b.size ≤ a.size))
      (fun a b => htotInt (fun x => x.size) b a)
      (fun a b c h1 h2 => htransInt (fun x => x.size) c b a h2 h1) files
    exact h.imp fun hab => of_decide_eq_true hab
  · intro files ob js h1 h2
    have hr : jsToLower (jsOrStr ob "") ≠ "random" := by
      intro h
      exact h2 (by rw [h]; decide)
    have hcond : (!strTruthy ob || (jsToLower (jsOrStr ob "") == "random")) = false := by
      rw [h1, beq_eq_false_iff_ne.mpr hr]
      rfl
    constructor
    · rw [sortFiles, if_neg (by rw [hcond]; exact Bool.false_ne_true)]
      split
      all_goals
        first
          | rfl
          | (rename_i heq
             exact absurd (by rw [heq]; decide) h2)
    · rw [sortFilesApi, if_neg (by rw [hcond]; exact Bool.false_ne_true)]
      split
      all_goals
        first
          | rfl
          | (rename_i heq
             exact absurd (by rw [heq]; decide) h2)

/-- C2 witness: the uniformity count at a concrete two-element list, and the
default branch evaluated at the concrete unrecognized key "foo". -/
theorem c2_witness :
    ((choiceSeqs 1).countP
      fun js => decide (fisherYates [itemA, itemB] js = [itemB, itemA])) = 1
    ∧ sortFiles [itemA, itemB] (some "foo") []
        = sortLe (fun a b => decide (b.created ≤ a.created)) [itemA, itemB] :=
  ⟨c2_sortFiles_amended.2.2.1 [itemA, itemB] (by decide) [itemB, itemA]
      (List.Perm.swap itemA itemB []),
    (c2_sortFiles_amended.2.2.2.2.2.2.2.2.2.2.2 [itemA, itemB] (some "foo") []
      (by decide) (by decide)).1⟩

/-! ## Theorems: pagination -/

theorem jsSlice_nonneg {α : Type} (l : List α) (s lim : Int) (hs : 0 ≤ s)
    (hl : 0 ≤ lim) : jsSlice l s (s + lim) = (l.drop s.toNat).take lim.toNat := by
  rw [jsSlice, jsSliceIdx, jsSliceIdx, if_neg (by omega), if_neg (by omega)]
  have he : (s + lim).toNat = s.toNat + lim.toNat := by omega
  rw [he, List.drop_take]
  by_cases hsl : s.toNat ≤ l.length
  · have hmins : min s.toNat l.length = s.toNat := by omega
    rw [hmins]
    rw [List.take_eq_take]
    rw [List.length_drop]
    omega
  · have hmins : min s.toNat l.length = l.length := by omega
    rw [hmins]
    have h1 : List.drop l.length l = [] := List.drop_eq_nil_of_le (le_refl _)
    have h2 : l.drop s.toNat = [] := List.drop_eq_nil_of_le (by omega)
    rw [h1, h2, List.take_nil, List.take_nil]

/-- C3 counterexample: with the limit parameter "-1" — not a valid
non-negative integer — the claim demands the default 100 and hence the full
two-element page, but the code parses -1, keeps it, and JavaScript slice then
drops the last element. -/
theorem c3_counterexample :
    (paginate [itemA, itemB] (some "-1") none).files = [itemA]
    ∧ (paginate [itemA, itemB] (some "-1") none).limit = -1
    ∧ ([itemA] : List ListItem) ≠ jsSlice [itemA, itemB] 0 (0 + 100) := by
  refine ⟨rfl, rfl, by decide⟩

/-- C3 (amended): the reported total is the full list length; limit is
parseInt(limit) with NaN and 0 — not every invalid or negative value —
replaced by 100, offset likewise with default 0; any other parsed value,
negative ones included, is kept; and whenever the effective offset and limit
are non-negative the page is items[offset : offset+limit], which is empty
when offset is at least the list length. -/
theorem c3_paginate_amended {α : Type} (items : List α)
    (limitP offsetP : Option String) :
    (paginate items limitP offsetP).total = items.length
    ∧ (paginate items limitP offsetP).limit = jsOrInt (jsParseInt limitP) 100
    ∧ (paginate items limitP offsetP).offset = jsOrInt (jsParseInt offsetP) 0
    ∧ (jsParseInt limitP = none → (paginate items limitP offsetP).limit = 100)
    ∧ (jsParseInt limitP = some 0 → (paginate items limitP offsetP).limit = 100)
    ∧ (∀ v : Int, jsParseInt limitP = some v → v ≠ 0 →
        (paginate items limitP offsetP).limit = v)
    ∧ (jsParseInt offsetP = none → (paginate items limitP offsetP).offset = 0)
    ∧ (jsParseInt offsetP = some 0 → (paginate items limitP offsetP).offset = 0)
    ∧ (∀ v : Int, jsParseInt offsetP = some v → v ≠ 0 →
        (paginate items limitP offsetP).offset = v)
    ∧ (0 ≤ (paginate items limitP offsetP).offset →
        0 ≤ (paginate items limitP offsetP).limit →
        (paginate items limitP offsetP).files =
          (items.drop (paginate items limitP offsetP).offset.toNat).take
            (paginate items limitP offsetP).limit.toNat)
    ∧ (0 ≤ (paginate items limitP offsetP).offset →
        items.length ≤ (paginate items limitP offsetP).offset.toNat →
        (paginate items limitP offsetP).files = []) := by
  refine ⟨rfl, rfl, rfl, ?_, ?_, ?_, ?_, ?_, ?_, ?_, ?_⟩
  · intro h
    show jsOrInt (jsParseInt limitP) 100 = 100
    rw [h]
    rfl
  · intro h
    show jsOrInt (jsParseInt limitP) 100 = 100
    rw [h]
    rfl
  · intro v h hv
    show jsOrInt (jsParseInt limitP) 100 = v
    rw [h, jsOrInt, if_neg hv]
  · intro h
    show jsOrInt (jsParseInt offsetP) 0 = 0
    rw [h]
    rfl
  · intro h
    show jsOrInt (jsParseInt offsetP) 0 = 0
    rw [h]
    rfl
  · intro v h hv
    show jsOrInt (jsParseInt offsetP) 0 = v
    rw [h, jsOrInt, if_neg hv]
  · intro h1 h2
    exact jsSlice_nonneg items _ _ h1 h2
  · intro h1 h2
    have h1a : 0 ≤ jsOrInt (jsParseInt offsetP) 0 := h1
    have h2a : items.length ≤ (jsOrInt (jsParseInt offsetP) 0).toNat := h2
    show jsSlice items (jsOrInt (jsParseInt offsetP) 0)
      (jsOrInt (jsParseInt offsetP) 0 + jsOrInt (jsParseInt limitP) 100) = []
    rw [jsSlice]
    have hidx : jsSliceIdx items.length (jsOrInt (jsParseInt offsetP) 0)
        = items.length := by
      rw [jsSliceIdx, if_neg (by omega)]
      omega
    rw [hidx]
    apply List.drop_eq_nil_of_le
    rw [List.length_take]
    omega

/-- C3 witness: with limit absent and offset "1" on a two-element list the
page is the drop-take slice. -/
theorem c3_witness :
    (paginate [itemA, itemB] none (some "1")).files =
      ([itemA, itemB].drop (paginate [itemA, itemB] none (some "1")).offset.toNat).take
        (paginate [itemA, itemB] none (some "1")).limit.toNat :=
  (c3_paginate_amended [itemA, itemB] none (some "1")).2.2.2.2.2.2.2.2.2.1
    (by decide) (by decide)

/-! ## Theorems: random selection -/

theorem scanIds_spec (fs : LibFS) (filters : Filters) : ∀ ids : List String,
    scanIds fs filters ids =
      (ids.filter fun i =>
        match loadFileMetadata fs i with
        | some m => matchesFilter m.mview filters
        | none => false,
       ids.map SrvCall.lightCall) := by
  intro ids
  induction ids with
  | nil => rfl
  | cons i rest ih =>
    rw [scanIds, ih, List.filter_cons, List.map_cons]

theorem countP_range_single (p : Nat → Bool) :
    ∀ n i0 : Nat, i0 < n → p i0 = true → (∀ i, i < n → i ≠ i0 → p i = false) →
    (List.range n).countP p = 1 := by
  intro n
  induction n with
  | zero => intro i0 h; omega
  | succ n ih =>
    intro i0 hi0 h1 h0
    rw [List.range_succ, List.countP_append]
    by_cases hi : i0 = n
    · have hz : (List.range n).countP p = 0 := by
        rw [List.countP_eq_zero]
        intro i hi2
        rw [List.mem_range] at hi2
        simp [h0 i (by omega) (by omega)]
      rw [hz]
      subst hi
      simp [List.countP_cons, h1]
    · have hs : (List.range n).countP p = 1 :=
        ih i0 (by omega) h1 (fun i hin hne => h0 i (by omega) hne)
      have hn : p n = false := h0 n (by omega) (fun he => hi he.symm)
      rw [hs]
      simp [List.countP_cons, hn]

/-- C4: random id selection enumerates every id, fetches exactly the
lightweight record for each (one lightCall per id, in order, and no fullCall
at all), keeps the matching ids, and indexes into them with the draw — with
duplicate-free ids every survivor is produced by exactly one draw, so a
uniform draw picks uniformly among survivors; random full selection reuses
that result and performs exactly one full resolution, for the winner only,
returning none when nothing matches. -/
theorem c4_random_selection (fs : LibFS) (filters : Filters) (j : Nat) :
    (getRandomFileId fs filters j).2 = (getAllFileIds fs).map SrvCall.lightCall
    ∧ (∀ i, SrvCall.fullCall i ∉ (getRandomFileId fs filters j).2)
    ∧ (survivors fs filters = [] → (getRandomFileId fs filters j).1 = none)
    ∧ (survivors fs filters ≠ [] →
        (getRandomFileId fs filters j).1 = (survivors fs filters)[j]?)
    ∧ ((getAllFileIds fs).Nodup → ∀ s ∈ survivors fs filters,
        ((List.range (survivors fs filters).length).countP
          fun i => decide ((getRandomFileId fs filters i).1 = some s)) = 1)
    ∧ ((getRandomFileId fs filters j).1 = none →
        getRandomFile fs filters j = (none, (getRandomFileId fs filters j).2))
    ∧ (∀ w, (getRandomFileId fs filters j).1 = some w →
        (getRandomFile fs filters j).2
            = (getRandomFileId fs filters j).2 ++ [SrvCall.fullCall w]
          ∧ ((getRandomFile fs filters j).2.countP SrvCall.isFull) = 1
          ∧ (getRandomFile fs filters j).1
              = Option.map toListItem (loadFileById fs w)) := by
  have hscan := scanIds_spec fs filters (getAllFileIds fs)
  have htrace : (getRandomFileId fs filters j).2
      = (getAllFileIds fs).map SrvCall.lightCall := by
    simp only [getRandomFileId, hscan]
    split <;> rfl
  have hres : ∀ k : Nat, (getRandomFileId fs filters k).1 =
      if (survivors fs filters).isEmpty then none
      else (survivors fs filters)[k]? := by
    intro k
    simp only [getRandomFileId, survivors]
    split <;> rfl
  have hcount0 :
      ((getAllFileIds fs).map SrvCall.lightCall).countP SrvCall.isFull = 0 := by
    rw [List.countP_eq_zero]
    intro c hc
    obtain ⟨a, _, rfl⟩ := List.mem_map.mp hc
    simp [SrvCall.isFull]
  refine ⟨htrace, ?_, ?_, ?_, ?_, ?_, ?_⟩
  · intro i hmem
    rw [htrace] at hmem
    obtain ⟨a, _, ha⟩ := List.mem_map.mp hmem
    exact SrvCall.noConfusion ha
  · intro hempty
    rw [hres j, if_pos (by rw [List.isEmpty_iff]; exact hempty)]
  · intro hne
    rw [hres j, if_neg (by rw [List.isEmpty_iff]; exact hne)]
  · intro hnd s hmem
    have hsnd : (survivors fs filters).Nodup := by
      have hsurv : survivors fs filters
          = (getAllFileIds fs).filter fun i =>
              match loadFileMetadata fs i with
              | some m => matchesFilter m.mview filters
              | none => false := by
        rw [survivors, hscan]
      rw [hsurv]
      exact (List.filter_sublist _).nodup hnd
    have hne : survivors fs filters ≠ [] := by
      intro h
      rw [h] at hmem
      exact List.not_mem_nil s hmem
    have hnonempty : (survivors fs filters).isEmpty = false := by
      cases hE : (survivors fs filters).isEmpty
      · rfl
      · exact absurd (List.isEmpty_iff.mp hE) hne
    obtain ⟨i0, hi0, hval⟩ := List.getElem_of_mem hmem
    apply countP_range_single _ _ i0 hi0
    · simp only [decide_eq_true_eq]
      rw [hres i0, if_neg (by rw [hnonempty]; exact Bool.false_ne_true)]
      rw [List.getElem?_eq_getElem hi0, hval]
    · intro i hi hne2
      simp only [decide_eq_false_iff_not]
      rw [hres i, if_neg (by rw [hnonempty]; exact Bool.false_ne_true)]
      rw [List.getElem?_eq_getElem hi]
      intro hcontra
      exact hne2 (hsnd.getElem_inj_iff.mp
        (by rw [Option.some_inj.mp hcontra, hval]))
  · intro hnone
    simp only [getRandomFile, hnone]
  · intro w hw
    simp only [getRandomFile, hw]
    cases hload : loadFileById fs w with
    | none =>
      refine ⟨rfl, ?_, rfl⟩
      rw [List.countP_append, htrace, hcount0]
      simp [List.countP_cons, SrvCall.isFull]
    | some file =>
      refine ⟨rfl, ?_, rfl⟩
      rw [List.countP_append, htrace, hcount0]
      simp [List.countP_cons, SrvCall.isFull]

/-- C4 witness: on the one-item sample library with the empty filter, the
drawn index selects from the survivors and the single full resolution targets
the winner. -/
theorem c4_witness :
    (getRandomFileId fsSample {} 0).1 = (survivors fsSample {})[0]?
    ∧ (getRandomFile fsSample {} 0).2
        = (getRandomFileId fsSample {} 0).2 ++ [SrvCall.fullCall "id1"] :=
  ⟨(c4_random_selection fsSample {} 0).2.2.2.1 (by decide),
    ((c4_random_selection fsSample {} 0).2.2.2.2.2.2 "id1" (by decide)).1⟩

/-! ## Theorems: error handling of the item source -/

/-- C5: item lookup returns none — by construction without raising — when the
item directory is missing, when metadata.json is missing, when the metadata
JSON is malformed, and when no main payload file exists; the lightweight
lookup returns none in its three failure cases likewise; and id enumeration
returns the empty list when the images directory is missing or unreadable. -/
theorem c5_lookup_failures :
    (∀ (fs : LibFS) (i : String), (fs.item i).dirExists = false →
      loadFileById fs i = none)
    ∧ (∀ (fs : LibFS) (i : String), (fs.item i).metaFileExists = false →
      loadFileById fs i = none)
    ∧ (∀ (fs : LibFS) (i : String), (fs.item i).metaParse = none →
      loadFileById fs i = none)
    ∧ (∀ (fs : LibFS) (i : String), findMainFile (fs.item i).entries = none →
      loadFileById fs i = none)
    ∧ (∀ (fs : LibFS) (i : String), (fs.item i).dirExists = false →
      loadFileMetadata fs i = none)
    ∧ (∀ (fs : LibFS) (i : String), (fs.item i).metaFileExists = false →
      loadFileMetadata fs i = none)
    ∧ (∀ (fs : LibFS) (i : String), (fs.item i).metaParse = none →
      loadFileMetadata fs i = none)
    ∧ (∀ fs : LibFS, fs.imagesDirExists = false → getAllFileIds fs = [])
    ∧ (∀ fs : LibFS, fs.readImagesDir = none → getAllFileIds fs = []) := by
  refine ⟨?_, ?_, ?_, ?_, ?_, ?_, ?_, ?_, ?_⟩
  · intro fs i h
    simp [loadFileById, h]
  · intro fs i h
    simp only [loadFileById, h]
    cases (fs.item i).dirExists <;> rfl
  · intro fs i h
    simp only [loadFileById, h]
    cases (fs.item i).dirExists <;> cases (fs.item i).metaFileExists <;> rfl
  · intro fs i h
    simp only [loadFileById, h]
    cases (fs.item i).dirExists <;> cases (fs.item i).metaFileExists <;>
      cases (fs.item i).metaParse <;> rfl
  · intro fs i h
    simp [loadFileMetadata, h]
  · intro fs i h
    simp only [loadFileMetadata, h]
    cases (fs.item i).dirExists <;> rfl
  · intro fs i h
    simp only [loadFileMetadata, h]
    cases (fs.item i).dirExists <;> cases (fs.item i).metaFileExists <;> rfl
  · intro fs h
    simp [getAllFileIds, h]
  · intro fs h
    simp only [getAllFileIds, h]
    cases fs.imagesDirExists <;> rfl

/-- C5 witness: on the concrete broken library, lookup yields none and
enumeration yields the empty list. -/
theorem c5_witness :
    loadFileById fsMissing "x" = none ∧ getAllFileIds fsMissing = [] :=
  ⟨c5_lookup_failures.1 fsMissing "x" rfl,
    c5_lookup_failures.2.2.2.2.2.2.2.1 fsMissing rfl⟩

/-! ## Theorems: streaming error path -/

/-- C6: the stream-error handler emits exactly a 500 status line with the
structured failure body if and only if response headers have not been sent;
when headers were already sent it emits nothing at all — in particular no
further status line. -/
theorem c6_stream_error_iff :
    ∀ headersSent : Bool,
      (streamErrorEvents headersSent
          = [RespEvent.writeHead 500, RespEvent.endJson false "Error reading file"]
        ↔ headersSent = false)
      ∧ (headersSent = true → streamErrorEvents headersSent = [])
      ∧ ((∃ c, RespEvent.writeHead c ∈ streamErrorEvents headersSent)
        ↔ headersSent = false) := by
  intro hs
  cases hs <;> simp [streamErrorEvents]

/-- C6 witness: with headers already sent, the handler emits nothing. -/
theorem c6_witness : streamErrorEvents true = [] :=
  (c6_stream_error_iff true).2.1 rfl

/-! ## Theorems: sorting operates on a private copy -/

/-- C7: the getFileList sorting step allocates a copy, hands the copy to the
in-place sort, and leaves the contents of the array the caller passed in
untouched, while the reference it returns holds the sorted contents and is
distinct from the argument reference. -/
theorem c7_sort_private_copy (h : ListHeap) (r : Nat) (orderBy : Option String)
    (js : List Nat) (hr : r < h.length) :
    heapGet (getFileListSortStep h r orderBy js).1 r = heapGet h r
    ∧ heapGet (getFileListSortStep h r orderBy js).1
        (getFileListSortStep h r orderBy js).2
        = sortFiles (heapGet h r) orderBy js
    ∧ (getFileListSortStep h r orderBy js).2 ≠ r := by
  have hcopy : heapGet (h ++ [heapGet h r]) h.length = heapGet h r := by
    rw [heapGet, List.getD_eq_getElem?_getD, List.getElem?_concat_length]
    rfl
  have hstep : getFileListSortStep h r orderBy js
      = ((h ++ [heapGet h r]).set h.length
          (sortFiles (heapGet h r) orderBy js), h.length) := by
    simp only [getFileListSortStep, sortFilesRef, hcopy]
  rw [hstep]
  refine ⟨?_, ?_, by omega⟩
  · rw [heapGet, List.getD_eq_getElem?_getD, List.getElem?_set,
      if_neg (by omega), List.getElem?_append_left hr,
      ← List.getD_eq_getElem?_getD, heapGet]
  · rw [heapGet, List.getD_eq_getElem?_getD, List.getElem?_set, if_pos rfl,
      if_pos (by simp)]
    rfl

/-- C7 witness: a concrete two-array heap whose first array keeps its
contents across the sorting step. -/
theorem c7_witness :
    heapGet (getFileListSortStep [[itemB, itemA]] 0 (some "size") []).1 0
      = heapGet [[itemB, itemA]] 0 :=
  (c7_sort_private_copy [[itemB, itemA]] 0 (some "size") [] (by decide)).1

/-! ## Theorems: response shape -/

/-- C8: the records serialized by the list endpoint and by the random
metadata endpoint carry exactly the eleven fields id, name, type, size,
created, modified, tags, folders, ext, width, height — in particular neither
the payload path nor the raw metadata blob — and the two shapes agree. -/
theorem c8_response_shape (f : EagleFile) :
    (listResponseEntries f).map Prod.fst =
      ["id", "name", "type", "size", "created", "modified", "tags", "folders",
       "ext", "width", "height"]
    ∧ (randomResponseEntries f).map Prod.fst =
      ["id", "name", "type", "size", "created", "modified", "tags", "folders",
       "ext", "width", "height"]
    ∧ "path" ∉ (listResponseEntries f).map Prod.fst
    ∧ "path" ∉ (randomResponseEntries f).map Prod.fst
    ∧ "metadata" ∉ (listResponseEntries f).map Prod.fst
    ∧ "metadata" ∉ (randomResponseEntries f).map Prod.fst
    ∧ listResponseEntries f = randomResponseEntries f := by
  have hk : (listResponseEntries f).map Prod.fst =
      ["id", "name", "type", "size", "created", "modified", "tags", "folders",
       "ext", "width", "height"] := rfl
  have hk2 : (randomResponseEntries f).map Prod.fst =
      ["id", "name", "type", "size", "created", "modified", "tags", "folders",
       "ext", "width", "height"] := rfl
  refine ⟨hk, hk2, ?_, ?_, ?_, ?_, rfl⟩
  · rw [hk]
    decide
  · rw [hk2]
    decide
  · rw [hk]
    decide
  · rw [hk2]
    decide

/-! ## Theorems: zero limit defaults -/

/-- C9: the parameter string "0" parses to 0, a falsy value, so the effective
limit is the default 100 and the full first hundred items are returned; more
generally the effective limit can never be 0, whatever the parameter. -/
theorem c9_limit_zero_defaults :
    jsOrInt (jsParseInt (some "0")) 100 = 100
    ∧ (paginate [itemA, itemB] (some "0") none).limit = 100
    ∧ (paginate [itemA, itemB] (some "0") none).files = [itemA, itemB]
    ∧ (∀ s : Option String, jsOrInt (jsParseInt s) 100 ≠ 0) := by
  refine ⟨rfl, rfl, rfl, ?_⟩
  intro s
  cases hv : jsParseInt s with
  | none => simp [jsOrInt]
  | some v =>
    simp only [jsOrInt]
    split
    · simp
    · next hvne => exact hvne

/-- C9 witness: a nonzero parse keeps its value and is nonzero. -/
theorem c9_witness : jsOrInt (jsParseInt (some "7")) 100 ≠ 0 :=
  c9_limit_zero_defaults.2.2.2 (some "7")

end EagleServer
